import Mathlib

/-!
# Verification of the Jarvis STT segmentation engine

Shallow embedding of the voice-activity-detection / utterance-segmentation
core of `src/speech_analysis/stt.py`:

* `AudioBuffer` (the SegmentationEngine of the spec): `add_chunk` /
  `get_audio_data`, embedded as `addChunk` / `getAudioData` over a state
  record; Python floats are modelled by exact reals (ℝ), configuration
  numbers by rationals (ℚ), int16 samples by ℤ.
* `WakeWordDetector.detect` (the WakeWordGate), with wall-clock time passed
  in explicitly as a rational number.
* The continuous-mode dispatch decision of `JarvisSTT._audio_callback` /
  `_process_audio`, with the in-flight-transcription flag (`is_processing`)
  supplied per step as an external `busy` input.

The deque with `maxlen` is modelled by keeping the last `maxlen` elements of
a list.  Logging, the debug counter and PyAudio plumbing have no effect on
the data flow and are omitted.
-/

namespace Jarvis

/-- Audio configuration (`AudioConfig` in `stt.py`); numeric fields are
rationals standing for the Python numbers.  `chunk_size` is the frame size
used in the duration formulas. -/
structure AudioConfig where
  sample_rate : ℚ
  chunk_size : ℚ
  silence_threshold : ℚ
  silence_duration : ℚ
  max_recording_time : ℚ

/-- Mutable state of `AudioBuffer`.  `max_size` is the deque capacity fixed
at construction; `buffer` holds the accumulated samples, `recent_rms` the
10-entry FIFO of recent RMS values. -/
structure AudioBufferState where
  max_size : ℕ
  buffer : List ℤ
  is_recording : Bool
  silence_counter : ℕ
  speech_detected : Bool
  recent_rms : List ℝ
  background_rms : ℝ
  recording_chunks : ℕ

/-- `AudioBuffer.__init__`: fresh buffer (default capacity 32000). -/
noncomputable def initBuffer (max_size : ℕ) : AudioBufferState :=
  ⟨max_size, [], false, 0, false, [], 0, 0⟩

/-- Mean square energy `np.mean(chunk.astype(float64) ** 2)` of a frame. -/
noncomputable def meanSquare (chunk : List ℤ) : ℝ :=
  ((chunk.map fun x : ℤ => ((x : ℝ)) ^ 2).sum) / (chunk.length : ℝ)

/-- RMS of a frame as computed at the top of `add_chunk`: 0 for an empty
frame; otherwise `sqrt` of the mean square, with the defensive guard that a
negative mean square (the code also guards NaN, which has no counterpart in
exact real arithmetic) is clamped to RMS 0. -/
noncomputable def rmsOf (chunk : List ℤ) : ℝ :=
  if chunk = [] then 0
  else if meanSquare chunk < 0 then 0
  else Real.sqrt (meanSquare chunk)

/-- Append to a deque with `maxlen`: keep the last `maxlen` elements. -/
def pushFifo (maxlen : ℕ) (l : List ℝ) (x : ℝ) : List ℝ :=
  (l ++ [x]).drop ((l ++ [x]).length - maxlen)

/-- `deque.extend` with `maxlen`: keep the last `cap` elements. -/
def pushCap (cap : ℕ) (l : List ℤ) : List ℤ :=
  l.drop (l.length - cap)

/-- Adaptive speech threshold of `add_chunk` (lines 89–95). -/
noncomputable def speechThresholdOf (cfg : AudioConfig) (bg : ℝ) : ℝ :=
  if 0 < bg then max ((cfg.silence_threshold : ℝ) * 2) (bg + 30)
  else (cfg.silence_threshold : ℝ) * 3

/-- Adaptive silence threshold of `add_chunk` (lines 89–96). -/
noncomputable def silenceThresholdOf (cfg : AudioConfig) (bg : ℝ) : ℝ :=
  if 0 < bg then min ((cfg.silence_threshold : ℝ)) (bg + 10)
  else (cfg.silence_threshold : ℝ) * 0.5

/-- `silence_duration * sample_rate / chunk_size` (line 122). -/
def silenceChunksOf (cfg : AudioConfig) : ℚ :=
  cfg.silence_duration * cfg.sample_rate / cfg.chunk_size

/-- `max_recording_time * sample_rate / chunk_size` (line 139). -/
def maxChunksOf (cfg : AudioConfig) : ℚ :=
  cfg.max_recording_time * cfg.sample_rate / cfg.chunk_size

/-- Background-noise estimate after pushing the new RMS (lines 84–86):
updated to the mean of the recent-RMS window only when speech has not been
detected and at least 5 RMS values are available. -/
noncomputable def backgroundAfter (st : AudioBufferState) (recent : List ℝ) : ℝ :=
  if st.speech_detected = false ∧ 5 ≤ recent.length then
    recent.sum / (recent.length : ℝ)
  else st.background_rms

/-- Tail of `add_chunk` (lines 136–148): the max-recording-time guard and the
append of the frame to the sample accumulator, reached unless the silence
branch returned early. -/
def finishFrame (cfg : AudioConfig) (st : AudioBufferState) (chunk : List ℤ) :
    Bool × AudioBufferState :=
  if st.is_recording = true then
    if maxChunksOf cfg < ((st.recording_chunks + 1 : ℕ) : ℚ) then
      (true, { st with recording_chunks := st.recording_chunks + 1, is_recording := false })
    else
      (false, { st with recording_chunks := st.recording_chunks + 1,
                        buffer := pushCap st.max_size (st.buffer ++ chunk) })
  else (false, st)

/-- `AudioBuffer.add_chunk` (lines 68–148).  Returns the `bool` result and
the successor state.  The `if/elif/elif` chain of lines 112–134 is the
nested `ite`; the silence-completion branch returns early (line 131), every
other path falls through to `finishFrame`. -/
noncomputable def addChunk (cfg : AudioConfig) (st : AudioBufferState) (chunk : List ℤ) :
    Bool × AudioBufferState :=
  let rms := rmsOf chunk
  let recent := pushFifo 10 st.recent_rms rms
  let bg := backgroundAfter st recent
  let st0 : AudioBufferState := { st with recent_rms := recent, background_rms := bg }
  if st0.speech_detected = false ∧ speechThresholdOf cfg bg < rms then
    finishFrame cfg { st0 with speech_detected := true, is_recording := true,
                               silence_counter := 0, recording_chunks := 0 } chunk
  else if st0.speech_detected = true ∧ rms ≤ silenceThresholdOf cfg bg then
    if silenceChunksOf cfg < ((st0.silence_counter + 1 : ℕ) : ℚ) then
      (true, { st0 with silence_counter := st0.silence_counter + 1, is_recording := false })
    else
      finishFrame cfg { st0 with silence_counter := st0.silence_counter + 1 } chunk
  else if st0.speech_detected = true ∧ silenceThresholdOf cfg bg < rms then
    finishFrame cfg { st0 with silence_counter := 0 } chunk
  else
    finishFrame cfg st0 chunk

/-- `AudioBuffer.get_audio_data` (lines 150–161): on an empty accumulator it
returns an empty sequence and (as in the source, which returns before the
reset statements) leaves the state untouched; otherwise it returns the
contents and clears the accumulator, `speech_detected`, `is_recording`,
`silence_counter` and `recording_chunks` (the recent-RMS window and the
background estimate are not reset). -/
def getAudioData (st : AudioBufferState) : List ℤ × AudioBufferState :=
  if st.buffer = [] then ([], st)
  else (st.buffer,
        { st with buffer := [], speech_detected := false, is_recording := false,
                  silence_counter := 0, recording_chunks := 0 })

/-- Feed a list of frames one at a time; collect the per-frame results of
`add_chunk` and the final state. -/
noncomputable def feedAll (cfg : AudioConfig) (st : AudioBufferState) :
    List (List ℤ) → List Bool × AudioBufferState
  | [] => ([], st)
  | c :: cs =>
      let r := addChunk cfg st c
      let rest := feedAll cfg r.2 cs
      (r.1 :: rest.1, rest.2)

/-- An operation on the audio buffer: process a frame, or retrieve the
utterance. -/
inductive BufOp where
  | frame (chunk : List ℤ)
  | retrieve

/-- Run a sequence of buffer operations from a state. -/
noncomputable def runOps (cfg : AudioConfig) (st : AudioBufferState) :
    List BufOp → AudioBufferState
  | [] => st
  | BufOp.frame c :: rest => runOps cfg (addChunk cfg st c).2 rest
  | BufOp.retrieve :: rest => runOps cfg (getAudioData st).2 rest

/-- State of `WakeWordDetector`: the lowercased wake phrases (texts are
lists of characters) and the time of the last successful detection.  The
cooldown is the fixed 2 seconds of the source. -/
structure WakeWordState where
  wake_words : List (List Char)
  last_detection : ℚ

/-- `WakeWordDetector.detect` (lines 268–286), with the current wall-clock
time `now` passed explicitly.  Empty text is rejected first; then the
cooldown gate; then a case-insensitive substring match of any wake phrase
against the text, which records the detection time. -/
def detect (st : WakeWordState) (text : List Char) (now : ℚ) :
    Bool × WakeWordState :=
  if text = [] then (false, st)
  else if now - st.last_detection < 2 then (false, st)
  else if ∃ w ∈ st.wake_words, w <:+: text.map Char.toLower then
    (true, { st with last_detection := now })
  else (false, st)

/-- Run a sequence of `detect` calls (text, time) through the detector. -/
def detectRun (st : WakeWordState) :
    List (List Char × ℚ) → List Bool × WakeWordState
  | [] => ([], st)
  | c :: cs =>
      let r := detect st c.1 c.2
      let rest := detectRun r.2 cs
      (r.1 :: rest.1, rest.2)

/-- Continuous-mode coordinator state: the segmentation state plus the list
of sample sequences handed to the transcription backend so far. -/
structure CoordState where
  buf : AudioBufferState
  transcribed : List (List ℤ)

/-- One frame of `JarvisSTT._audio_callback` (lines 373–393) together with
the buffer drain of `_process_audio` (lines 395–430).  `busy` is the value
of `is_processing` observed when the utterance completes: when the chunk
completes an utterance and no transcription is in flight, the accumulator is
drained and (if non-empty) transcribed; when a transcription is in flight
the utterance is dropped — the accumulator is left as `add_chunk` left it
and nothing is transcribed. -/
noncomputable def coordStep (cfg : AudioConfig) (s : CoordState)
    (chunk : List ℤ) (busy : Bool) : CoordState :=
  let r := addChunk cfg s.buf chunk
  if r.1 = true ∧ busy = false then
    let d := getAudioData r.2
    ⟨d.2, s.transcribed ++ (if d.1 = [] then [] else [d.1])⟩
  else ⟨r.2, s.transcribed⟩

/-- Run the continuous-mode coordinator over a list of (frame, busy) pairs. -/
noncomputable def coordRun (cfg : AudioConfig) (s : CoordState) :
    List (List ℤ × Bool) → CoordState
  | [] => s
  | c :: cs => coordRun cfg (coordStep cfg s c.1 c.2) cs

/-- The state of a buffer that has only ever seen silence: empty accumulator,
no speech, `k` RMS entries (all zero, capped at 10), zero background. -/
noncomputable def zeroState (cap k : ℕ) : AudioBufferState :=
  ⟨cap, [], false, 0, false, List.replicate (min k 10) 0, 0, 0⟩

/-- Repeatedly append frames to a capacity-`cap` accumulator, keeping the
last `cap` samples each time (the shape the accumulator takes over a run). -/
def appendCap (cap : ℕ) (buf : List ℤ) (ls : List (List ℤ)) : List ℤ :=
  ls.foldl (fun b c => pushCap cap (b ++ c)) buf

/-- Shape of the buffer state during an utterance: speech detected, fixed
background estimate `b`, and the given accumulator, recording flag, silence
and recording counters (the recent-RMS window is left unconstrained). -/
def Shape (st : AudioBufferState) (cap : ℕ) (buf : List ℤ) (rec : Bool)
    (sc : ℕ) (b : ℝ) (rc : ℕ) : Prop :=
  st.max_size = cap ∧ st.buffer = buf ∧ st.is_recording = rec ∧
  st.silence_counter = sc ∧ st.speech_detected = true ∧
  st.background_rms = b ∧ st.recording_chunks = rc

/-- The invariant of claim C10: recording implies speech has been detected. -/
def recImpliesSpeech (st : AudioBufferState) : Prop :=
  st.is_recording = true → st.speech_detected = true

/-! ## Basic facts about RMS and the bounded buffers -/

lemma meanSquare_nonneg (chunk : List ℤ) : 0 ≤ meanSquare chunk := by
  unfold meanSquare
  apply div_nonneg
  · exact List.sum_nonneg fun x hx => by
      obtain ⟨y, _, rfl⟩ := List.mem_map.1 hx
      positivity
  · positivity

lemma rmsOf_nil : rmsOf [] = 0 := by simp [rmsOf]

lemma rmsOf_nonneg (chunk : List ℤ) : 0 ≤ rmsOf chunk := by
  unfold rmsOf
  split
  · exact le_refl 0
  · split
    · exact le_refl 0
    · exact Real.sqrt_nonneg _

lemma rmsOf_eq_sqrt (chunk : List ℤ) (h : chunk ≠ []) :
    rmsOf chunk = Real.sqrt (meanSquare chunk) := by
  unfold rmsOf
  rw [if_neg h, if_neg (not_lt.2 (meanSquare_nonneg chunk))]

lemma meanSquare_allZero {chunk : List ℤ} (h : ∀ x ∈ chunk, x = 0) :
    meanSquare chunk = 0 := by
  unfold meanSquare
  rw [List.sum_eq_zero, zero_div]
  intro x hx
  obtain ⟨y, hy, rfl⟩ := List.mem_map.1 hx
  rw [h y hy]
  norm_num

lemma rmsOf_allZero {chunk : List ℤ} (h : ∀ x ∈ chunk, x = 0) :
    rmsOf chunk = 0 := by
  rcases eq_or_ne chunk [] with rfl | hne
  · exact rmsOf_nil
  · rw [rmsOf_eq_sqrt chunk hne, meanSquare_allZero h, Real.sqrt_zero]

lemma meanSquare_replicate (n : ℕ) (c : ℤ) (hn : n ≠ 0) :
    meanSquare (List.replicate n c) = ((c : ℝ)) ^ 2 := by
  unfold meanSquare
  rw [List.map_replicate, List.sum_replicate, List.length_replicate, nsmul_eq_mul,
      mul_div_cancel_left₀ _ (show ((n : ℝ)) ≠ 0 by exact_mod_cast hn)]

lemma rmsOf_replicate (n : ℕ) (c : ℤ) (hn : n ≠ 0) :
    rmsOf (List.replicate n c) = |(c : ℝ)| := by
  rw [rmsOf_eq_sqrt _ (by simp [hn]), meanSquare_replicate n c hn,
      Real.sqrt_sq_eq_abs]

lemma pushFifo_replicate_zero (m : ℕ) :
    pushFifo 10 (List.replicate m (0 : ℝ)) 0 = List.replicate (min (m + 1) 10) 0 := by
  unfold pushFifo
  rw [← List.replicate_succ' m (0 : ℝ), List.drop_replicate, List.length_replicate]
  congr 1
  omega

lemma pushCap_length (cap : ℕ) (l : List ℤ) :
    (pushCap cap l).length = min l.length cap := by
  unfold pushCap
  rw [List.length_drop]
  omega

lemma pushCap_of_le (cap : ℕ) (l : List ℤ) (h : l.length ≤ cap) :
    pushCap cap l = l := by
  unfold pushCap
  rw [Nat.sub_eq_zero_of_le h, List.drop_zero]

lemma appendCap_length (cap : ℕ) (buf : List ℤ) (ls : List (List ℤ))
    (hb : buf.length ≤ cap) :
    (appendCap cap buf ls).length = min (buf.length + (ls.map List.length).sum) cap := by
  induction ls generalizing buf with
  | nil => simp [appendCap, Nat.min_eq_left hb]
  | cons c cs ih =>
      have h1 : (pushCap cap (buf ++ c)).length = min (buf.length + c.length) cap := by
        rw [pushCap_length, List.length_append]
      have h2 := ih (pushCap cap (buf ++ c)) (by omega)
      simp only [appendCap, List.foldl_cons] at h2 ⊢
      rw [h2, h1, List.map_cons, List.sum_cons]
      omega

/-! ## Case analyses of `addChunk` -/

lemma backgroundAfter_of_speech (st : AudioBufferState) (recent : List ℝ)
    (hs : st.speech_detected = true) :
    backgroundAfter st recent = st.background_rms := by
  unfold backgroundAfter
  rw [if_neg]
  simp [hs]

lemma finishFrame_idle (cfg : AudioConfig) (st : AudioBufferState) (chunk : List ℤ)
    (h : st.is_recording = false) : finishFrame cfg st chunk = (false, st) := by
  unfold finishFrame
  rw [if_neg]
  simp [h]

lemma finishFrame_append (cfg : AudioConfig) (st : AudioBufferState) (chunk : List ℤ)
    (h : st.is_recording = true)
    (hm : ((st.recording_chunks + 1 : ℕ) : ℚ) ≤ maxChunksOf cfg) :
    finishFrame cfg st chunk =
      (false, { st with recording_chunks := st.recording_chunks + 1,
                        buffer := pushCap st.max_size (st.buffer ++ chunk) }) := by
  unfold finishFrame
  rw [if_pos h, if_neg (not_lt.2 hm)]

lemma finishFrame_maxed (cfg : AudioConfig) (st : AudioBufferState) (chunk : List ℤ)
    (h : st.is_recording = true)
    (hm : maxChunksOf cfg < ((st.recording_chunks + 1 : ℕ) : ℚ)) :
    finishFrame cfg st chunk =
      (true, { st with recording_chunks := st.recording_chunks + 1,
                       is_recording := false }) := by
  unfold finishFrame
  rw [if_pos h, if_pos hm]

/-- No speech yet and the frame stays at or below the speech threshold, not
recording: only the RMS window and background estimate change. -/
lemma addChunk_quiet (cfg : AudioConfig) (st : AudioBufferState) (chunk : List ℤ)
    (hs : st.speech_detected = false) (hrec : st.is_recording = false)
    (hr : rmsOf chunk ≤
      speechThresholdOf cfg (backgroundAfter st (pushFifo 10 st.recent_rms (rmsOf chunk)))) :
    addChunk cfg st chunk =
      (false, { st with
                recent_rms := pushFifo 10 st.recent_rms (rmsOf chunk),
                background_rms := backgroundAfter st (pushFifo 10 st.recent_rms (rmsOf chunk)) }) := by
  unfold addChunk
  simp only [hs]
  rw [if_neg (by simp [not_lt.2 hr]), if_neg (by simp), if_neg (by simp),
      finishFrame_idle _ _ _ (by simpa using hrec)]

/-- Speech onset: no speech yet, frame above the speech threshold, within the
max-recording bound — starts recording and captures the onset frame. -/
lemma addChunk_onset (cfg : AudioConfig) (st : AudioBufferState) (chunk : List ℤ)
    (hs : st.speech_detected = false)
    (hr : speechThresholdOf cfg (backgroundAfter st (pushFifo 10 st.recent_rms (rmsOf chunk))) <
      rmsOf chunk)
    (hm : (1 : ℚ) ≤ maxChunksOf cfg) :
    addChunk cfg st chunk =
      (false, { st with
                recent_rms := pushFifo 10 st.recent_rms (rmsOf chunk),
                background_rms := backgroundAfter st (pushFifo 10 st.recent_rms (rmsOf chunk)),
                speech_detected := true, is_recording := true,
                silence_counter := 0, recording_chunks := 1,
                buffer := pushCap st.max_size (st.buffer ++ chunk) }) := by
  unfold addChunk
  simp only [hs]
  rw [if_pos ⟨trivial, hr⟩, finishFrame_append _ _ _ rfl (by push_cast; simpa using hm)]

/-- Speech continues: frame above the silence threshold while recording,
within the max-recording bound — the silence counter resets and the frame is
appended. -/
lemma addChunk_speech_continue (cfg : AudioConfig) (st : AudioBufferState) (chunk : List ℤ)
    (hs : st.speech_detected = true) (hrec : st.is_recording = true)
    (hr : silenceThresholdOf cfg st.background_rms < rmsOf chunk)
    (hm : ((st.recording_chunks + 1 : ℕ) : ℚ) ≤ maxChunksOf cfg) :
    addChunk cfg st chunk =
      (false, { st with
                recent_rms := pushFifo 10 st.recent_rms (rmsOf chunk),
                silence_counter := 0,
                recording_chunks := st.recording_chunks + 1,
                buffer := pushCap st.max_size (st.buffer ++ chunk) }) := by
  unfold addChunk
  simp only [backgroundAfter_of_speech st _ hs, hs]
  rw [if_neg (by simp), if_neg (by simp [not_le.2 hr]), if_pos ⟨trivial, hr⟩,
      finishFrame_append _ _ _ (by simpa using hrec) (by simpa using hm)]

/-- Speech continues past the maximum recording time: forced completion. -/
lemma addChunk_speech_maxed (cfg : AudioConfig) (st : AudioBufferState) (chunk : List ℤ)
    (hs : st.speech_detected = true) (hrec : st.is_recording = true)
    (hr : silenceThresholdOf cfg st.background_rms < rmsOf chunk)
    (hm : maxChunksOf cfg < ((st.recording_chunks + 1 : ℕ) : ℚ)) :
    addChunk cfg st chunk =
      (true, { st with
               recent_rms := pushFifo 10 st.recent_rms (rmsOf chunk),
               silence_counter := 0,
               recording_chunks := st.recording_chunks + 1,
               is_recording := false }) := by
  unfold addChunk
  simp only [backgroundAfter_of_speech st _ hs, hs]
  rw [if_neg (by simp), if_neg (by simp [not_le.2 hr]), if_pos ⟨trivial, hr⟩,
      finishFrame_maxed _ _ _ (by simpa using hrec) (by simpa using hm)]

/-- A silent frame during speech whose count stays within the silence-chunk
threshold: the counter increments and the frame is still appended. -/
lemma addChunk_silent_count (cfg : AudioConfig) (st : AudioBufferState) (chunk : List ℤ)
    (hs : st.speech_detected = true) (hrec : st.is_recording = true)
    (hr : rmsOf chunk ≤ silenceThresholdOf cfg st.background_rms)
    (hc : ((st.silence_counter + 1 : ℕ) : ℚ) ≤ silenceChunksOf cfg)
    (hm : ((st.recording_chunks + 1 : ℕ) : ℚ) ≤ maxChunksOf cfg) :
    addChunk cfg st chunk =
      (false, { st with
                recent_rms := pushFifo 10 st.recent_rms (rmsOf chunk),
                silence_counter := st.silence_counter + 1,
                recording_chunks := st.recording_chunks + 1,
                buffer := pushCap st.max_size (st.buffer ++ chunk) }) := by
  unfold addChunk
  simp only [backgroundAfter_of_speech st _ hs, hs]
  rw [if_neg (by simp), if_pos ⟨trivial, hr⟩, if_neg (by simpa using not_lt.2 hc),
      finishFrame_append _ _ _ (by simpa using hrec) (by simpa using hm)]

/-- A silent frame during speech whose count exceeds the silence-chunk
threshold: utterance completion (returns early; no append, no recording
count change), regardless of the current recording flag. -/
lemma addChunk_silent_complete (cfg : AudioConfig) (st : AudioBufferState) (chunk : List ℤ)
    (hs : st.speech_detected = true)
    (hr : rmsOf chunk ≤ silenceThresholdOf cfg st.background_rms)
    (hc : silenceChunksOf cfg < ((st.silence_counter + 1 : ℕ) : ℚ)) :
    addChunk cfg st chunk =
      (true, { st with recent_rms := pushFifo 10 st.recent_rms (rmsOf chunk),
                       silence_counter := st.silence_counter + 1,
                       is_recording := false }) := by
  unfold addChunk
  simp only [backgroundAfter_of_speech st _ hs, hs]
  rw [if_neg (by simp), if_pos ⟨trivial, hr⟩, if_pos hc]

/-! ## Runs of frames -/

lemma initBuffer_eq_zeroState (cap : ℕ) : initBuffer cap = zeroState cap 0 := rfl

/-- Processing an all-zero frame from an all-silence state: nothing happens
except one more zero entering the RMS window. -/
lemma addChunk_zero_step (cfg : AudioConfig) (cap k : ℕ) (chunk : List ℤ)
    (hT : 0 ≤ cfg.silence_threshold) (hz : ∀ x ∈ chunk, x = 0) :
    addChunk cfg (zeroState cap k) chunk = (false, zeroState cap (k + 1)) := by
  have hrms : rmsOf chunk = 0 := rmsOf_allZero hz
  have hpush : pushFifo 10 (zeroState cap k).recent_rms (rmsOf chunk) =
      List.replicate (min (k + 1) 10) 0 := by
    rw [hrms]
    show pushFifo 10 (List.replicate (min k 10) 0) 0 = _
    rw [pushFifo_replicate_zero]
    congr 1
    omega
  have hbg : backgroundAfter (zeroState cap k) (List.replicate (min (k + 1) 10) (0 : ℝ)) = 0 := by
    unfold backgroundAfter
    split
    · simp
    · rfl
  have hr : rmsOf chunk ≤
      speechThresholdOf cfg
        (backgroundAfter (zeroState cap k) (pushFifo 10 (zeroState cap k).recent_rms (rmsOf chunk))) := by
    rw [hpush, hbg, hrms]
    unfold speechThresholdOf
    rw [if_neg (lt_irrefl 0)]
    have : (0 : ℝ) ≤ (cfg.silence_threshold : ℝ) := by exact_mod_cast hT
    linarith
  rw [addChunk_quiet cfg (zeroState cap k) chunk rfl rfl hr, hpush, hbg]
  rfl

/-- A run of all-zero frames from an all-silence state never completes an
utterance and stays an all-silence state. -/
lemma feedAll_zero (cfg : AudioConfig) (cap : ℕ) (hT : 0 ≤ cfg.silence_threshold)
    (frames : List (List ℤ)) :
    ∀ k : ℕ, (∀ c ∈ frames, ∀ x ∈ c, x = 0) →
      feedAll cfg (zeroState cap k) frames =
        (List.replicate frames.length false, zeroState cap (k + frames.length)) := by
  induction frames with
  | nil => intro k _; simp [feedAll]
  | cons c cs ih =>
      intro k h
      simp only [feedAll]
      rw [addChunk_zero_step cfg cap k c hT (h c (by simp)),
          ih (k + 1) (fun c' hc' => h c' (by simp [hc']))]
      refine Prod.ext ?_ ?_
      · simp [List.replicate_succ]
      · show zeroState cap (k + 1 + cs.length) = zeroState cap (k + (cs.length + 1))
        congr 1
        omega

/-- A run of frames above the silence threshold while recording, within the
maximum recording time: the silence counter stays 0, no completion is
signalled, and every frame is appended. -/
lemma feedAll_loud (cfg : AudioConfig) (cap : ℕ) (b : ℝ) (ls : List (List ℤ)) :
    ∀ (st : AudioBufferState) (buf : List ℤ) (rc : ℕ),
      Shape st cap buf true 0 b rc →
      (∀ l ∈ ls, silenceThresholdOf cfg b < rmsOf l) →
      ((rc + ls.length : ℕ) : ℚ) ≤ maxChunksOf cfg →
      (feedAll cfg st ls).1 = List.replicate ls.length false ∧
      Shape (feedAll cfg st ls).2 cap (appendCap cap buf ls) true 0 b (rc + ls.length) := by
  induction ls with
  | nil =>
      intro st buf rc hsh _ _
      simpa [feedAll, appendCap] using hsh
  | cons l ls ih =>
      intro st buf rc hsh hl hm
      obtain ⟨h1, h2, h3, h4, h5, h6, h7⟩ := hsh
      have hm1 : ((st.recording_chunks + 1 : ℕ) : ℚ) ≤ maxChunksOf cfg := by
        rw [h7]
        refine le_trans ?_ hm
        push_cast
        simp only [List.length_cons]
        push_cast
        linarith
      have hstep := addChunk_speech_continue cfg st l h5 h3
        (by rw [h6]; exact hl l (by simp)) hm1
      simp only [feedAll, hstep]
      have hsh' : Shape { st with
          recent_rms := pushFifo 10 st.recent_rms (rmsOf l),
          silence_counter := 0,
          recording_chunks := st.recording_chunks + 1,
          buffer := pushCap st.max_size (st.buffer ++ l) }
          cap (pushCap cap (buf ++ l)) true 0 b (rc + 1) := by
        refine ⟨h1, ?_, h3, rfl, h5, h6, by rw [h7]⟩
        rw [h1, h2]
      obtain ⟨ihr, ihsh⟩ := ih _ (pushCap cap (buf ++ l)) (rc + 1) hsh'
        (fun l' hl' => hl l' (by simp [hl']))
        (by refine le_trans (le_of_eq ?_) hm; push_cast; simp only [List.length_cons]; push_cast; ring)
      refine ⟨?_, ?_⟩
      · simp only [List.length_cons, List.replicate_succ]
        rw [← ihr]
      · have hfix : appendCap cap buf (l :: ls) = appendCap cap (pushCap cap (buf ++ l)) ls := rfl
        rw [hfix]
        have : rc + (l :: ls).length = rc + 1 + ls.length := by
          simp only [List.length_cons]
          omega
        rw [this]
        exact ihsh

/-- A run of silent frames while recording, with the silence count staying
within the threshold: counters advance, frames are still appended, no
completion. -/
lemma feedAll_silent_count (cfg : AudioConfig) (cap : ℕ) (b : ℝ) (ss : List (List ℤ)) :
    ∀ (st : AudioBufferState) (buf : List ℤ) (sc rc : ℕ),
      Shape st cap buf true sc b rc →
      (∀ s ∈ ss, rmsOf s ≤ silenceThresholdOf cfg b) →
      ((sc + ss.length : ℕ) : ℚ) ≤ silenceChunksOf cfg →
      ((rc + ss.length : ℕ) : ℚ) ≤ maxChunksOf cfg →
      (feedAll cfg st ss).1 = List.replicate ss.length false ∧
      Shape (feedAll cfg st ss).2 cap (appendCap cap buf ss) true (sc + ss.length) b
        (rc + ss.length) := by
  induction ss with
  | nil =>
      intro st buf sc rc hsh _ _ _
      simpa [feedAll, appendCap] using hsh
  | cons s ss ih =>
      intro st buf sc rc hsh hl hsc hm
      obtain ⟨h1, h2, h3, h4, h5, h6, h7⟩ := hsh
      have hsc1 : ((st.silence_counter + 1 : ℕ) : ℚ) ≤ silenceChunksOf cfg := by
        rw [h4]
        refine le_trans ?_ hsc
        push_cast
        simp only [List.length_cons]
        push_cast
        linarith
      have hm1 : ((st.recording_chunks + 1 : ℕ) : ℚ) ≤ maxChunksOf cfg := by
        rw [h7]
        refine le_trans ?_ hm
        push_cast
        simp only [List.length_cons]
        push_cast
        linarith
      have hstep := addChunk_silent_count cfg st s h5 h3
        (by rw [h6]; exact hl s (by simp)) hsc1 hm1
      simp only [feedAll, hstep]
      have hsh' : Shape { st with
          recent_rms := pushFifo 10 st.recent_rms (rmsOf s),
          silence_counter := st.silence_counter + 1,
          recording_chunks := st.recording_chunks + 1,
          buffer := pushCap st.max_size (st.buffer ++ s) }
          cap (pushCap cap (buf ++ s)) true (sc + 1) b (rc + 1) := by
        refine ⟨h1, ?_, h3, by rw [h4], h5, h6, by rw [h7]⟩
        rw [h1, h2]
      obtain ⟨ihr, ihsh⟩ := ih _ (pushCap cap (buf ++ s)) (sc + 1) (rc + 1) hsh'
        (fun s' hs' => hl s' (by simp [hs']))
        (by refine le_trans (le_of_eq ?_) hsc; push_cast; simp only [List.length_cons]; push_cast; ring)
        (by refine le_trans (le_of_eq ?_) hm; push_cast; simp only [List.length_cons]; push_cast; ring)
      refine ⟨?_, ?_⟩
      · simp only [List.length_cons, List.replicate_succ]
        rw [← ihr]
      · have hfix : appendCap cap buf (s :: ss) = appendCap cap (pushCap cap (buf ++ s)) ss := rfl
        rw [hfix]
        have e1 : sc + (s :: ss).length = sc + 1 + ss.length := by
          simp only [List.length_cons]; omega
        have e2 : rc + (s :: ss).length = rc + 1 + ss.length := by
          simp only [List.length_cons]; omega
        rw [e1, e2]
        exact ihsh

/-- A run of silent frames once the silence count has passed the threshold:
every call completes (returns true) and the accumulator no longer changes. -/
lemma feedAll_silent_tail (cfg : AudioConfig) (b : ℝ) (ss : List (List ℤ)) :
    ∀ st : AudioBufferState,
      st.speech_detected = true → st.background_rms = b →
      silenceChunksOf cfg < ((st.silence_counter + 1 : ℕ) : ℚ) →
      (∀ s ∈ ss, rmsOf s ≤ silenceThresholdOf cfg b) →
      (feedAll cfg st ss).1 = List.replicate ss.length true ∧
      (feedAll cfg st ss).2.buffer = st.buffer ∧
      (ss ≠ [] → (feedAll cfg st ss).2.is_recording = false) := by
  induction ss with
  | nil =>
      intro st _ _ _ _
      exact ⟨rfl, rfl, fun h => absurd rfl h⟩
  | cons s ss ih =>
      intro st h5 h6 hsc hl
      have hstep := addChunk_silent_complete cfg st s h5
        (by rw [h6]; exact hl s (by simp))
        hsc
      simp only [feedAll, hstep]
      have hsc' : silenceChunksOf cfg < ((st.silence_counter + 1 + 1 : ℕ) : ℚ) := by
        refine lt_of_lt_of_le hsc ?_
        push_cast
        linarith
      obtain ⟨ihr, ihb, ihrec⟩ := ih { st with
          recent_rms := pushFifo 10 st.recent_rms (rmsOf s),
          silence_counter := st.silence_counter + 1,
          is_recording := false } h5 h6 hsc'
        (fun s' hs' => hl s' (by simp [hs']))
      refine ⟨?_, ihb, ?_⟩
      · simp only [List.length_cons, List.replicate_succ]
        rw [← ihr]
      · intro _
        rcases eq_or_ne ss [] with rfl | hne
        · simp [feedAll]
        · exact ihrec hne

lemma speechThresholdOf_zero (cfg : AudioConfig) :
    speechThresholdOf cfg 0 = (cfg.silence_threshold : ℝ) * 3 := by
  unfold speechThresholdOf
  rw [if_neg (lt_irrefl 0)]

lemma silenceThresholdOf_zero (cfg : AudioConfig) :
    silenceThresholdOf cfg 0 = (cfg.silence_threshold : ℝ) * 0.5 := by
  unfold silenceThresholdOf
  rw [if_neg (lt_irrefl 0)]

lemma feedAll_append (cfg : AudioConfig) (xs ys : List (List ℤ)) :
    ∀ st : AudioBufferState,
      feedAll cfg st (xs ++ ys) =
        ((feedAll cfg st xs).1 ++ (feedAll cfg (feedAll cfg st xs).2 ys).1,
         (feedAll cfg (feedAll cfg st xs).2 ys).2) := by
  induction xs with
  | nil => intro st; simp [feedAll]
  | cons x xs ih =>
      intro st
      simp only [List.cons_append, feedAll, ih, List.append_eq]

/-! ## Claims -/

/-- C2: starting from a fresh buffer, all-zero frames (of any number, in
particular any total duration below the maximum recording time) never
complete an utterance: `add_chunk` returns `false` on every frame. -/
theorem silence_never_completes (cfg : AudioConfig) (cap : ℕ) (frames : List (List ℤ))
    (hT : 0 ≤ cfg.silence_threshold)
    (hz : ∀ c ∈ frames, ∀ x ∈ c, x = 0)
    (_hd : ((frames.length : ℕ) : ℚ) ≤ maxChunksOf cfg) :
    (feedAll cfg (initBuffer cap) frames).1 = List.replicate frames.length false := by
  rw [initBuffer_eq_zeroState, feedAll_zero cfg cap hT frames 0 hz]

/-- Witness for C2: three all-zero frames of 4 samples at the default
configuration produce three `false` results. -/
theorem silence_never_completes_witness :
    (0 : ℚ) ≤ (50 : ℚ) ∧
    (((List.replicate 3 (List.replicate 4 (0 : ℤ))).length : ℕ) : ℚ) ≤
      maxChunksOf ⟨16000, 1024, 50, 3/10, 10⟩ ∧
    (feedAll ⟨16000, 1024, 50, 3/10, 10⟩ (initBuffer 32000)
        (List.replicate 3 (List.replicate 4 (0 : ℤ)))).1 =
      List.replicate 3 false := by
  have h1 : (0 : ℚ) ≤ 50 := by norm_num
  have h2 : (((List.replicate 3 (List.replicate 4 (0 : ℤ))).length : ℕ) : ℚ) ≤
      maxChunksOf ⟨16000, 1024, 50, 3/10, 10⟩ := by
    simp [maxChunksOf]
    norm_num
  refine ⟨h1, h2, ?_⟩
  have h3 := silence_never_completes ⟨16000, 1024, 50, 3/10, 10⟩ 32000
    (List.replicate 3 (List.replicate 4 (0 : ℤ))) h1
    (by intro c hc x hx
        rw [List.eq_of_mem_replicate hc] at hx
        exact List.eq_of_mem_replicate hx) h2
  simpa using h3

/-- C5 counterexample: on a state whose accumulator is empty but whose
`speech_detected` and counters are set, `get_audio_data` returns the empty
sequence but does not reset anything — the claim's "resets in the same
call, for every engine state" fails. -/
theorem retrieve_reset_counterexample :
    (getAudioData ⟨32000, [], false, 3, true, [], 0, 7⟩).1 = [] ∧
    ((getAudioData ⟨32000, [], false, 3, true, [], 0, 7⟩).2).speech_detected = true ∧
    ((getAudioData ⟨32000, [], false, 3, true, [], 0, 7⟩).2).silence_counter = 3 ∧
    ((getAudioData ⟨32000, [], false, 3, true, [], 0, 7⟩).2).recording_chunks = 7 :=
  ⟨rfl, rfl, rfl, rfl⟩

/-- C5 (amended): `retrieveUtterance` returns the accumulator contents; when
the accumulator is non-empty it clears it and resets `speech_detected`,
`is_recording`, `silence_counter` and `recording_chunks` in the same call;
when the accumulator is empty it returns an empty sequence (no error) and
leaves the state unchanged. -/
theorem retrieve_spec (st : AudioBufferState) :
    (st.buffer = [] → getAudioData st = ([], st)) ∧
    (st.buffer ≠ [] →
      getAudioData st =
        (st.buffer,
         { st with buffer := [], speech_detected := false, is_recording := false,
                   silence_counter := 0, recording_chunks := 0 })) := by
  constructor <;> intro h <;> unfold getAudioData
  · rw [if_pos h]
  · rw [if_neg h]

/-- Witness for C5 (amended): both branches at concrete states. -/
theorem retrieve_spec_witness :
    ((⟨8, [], false, 0, false, [], 0, 0⟩ : AudioBufferState).buffer = [] ∧
      getAudioData ⟨8, [], false, 0, false, [], 0, 0⟩ =
        ([], ⟨8, [], false, 0, false, [], 0, 0⟩)) ∧
    ((⟨8, [5], true, 1, true, [], 0, 2⟩ : AudioBufferState).buffer ≠ [] ∧
      getAudioData ⟨8, [5], true, 1, true, [], 0, 2⟩ =
        ([5], ⟨8, [], false, 0, false, [], 0, 0⟩)) := by
  constructor
  · exact ⟨rfl, (retrieve_spec _).1 rfl⟩
  · have h : (⟨8, [5], true, 1, true, [], 0, 2⟩ : AudioBufferState).buffer ≠ [] := by
      simp
    exact ⟨h, (retrieve_spec _).2 h⟩

/-- C6: calling `get_audio_data` twice in a row (no intervening frame)
returns an empty sequence the second time, from every state. -/
theorem retrieve_idempotent (st : AudioBufferState) :
    (getAudioData (getAudioData st).2).1 = [] := by
  unfold getAudioData
  rcases eq_or_ne st.buffer [] with h | h
  · rw [if_pos h]
    simp only []
    rw [if_pos h]
  · rw [if_neg h]
    simp

/-- C8: for positive configured silence threshold the adaptive speech
threshold is strictly above the adaptive silence threshold, in both the
established-background and the no-background case, with the formulas of the
source. -/
theorem threshold_hysteresis (cfg : AudioConfig) (bg : ℝ)
    (hT : 0 < cfg.silence_threshold) :
    silenceThresholdOf cfg bg < speechThresholdOf cfg bg ∧
    (0 < bg →
      speechThresholdOf cfg bg = max ((cfg.silence_threshold : ℝ) * 2) (bg + 30) ∧
      silenceThresholdOf cfg bg = min ((cfg.silence_threshold : ℝ)) (bg + 10)) ∧
    (¬0 < bg →
      speechThresholdOf cfg bg = (cfg.silence_threshold : ℝ) * 3 ∧
      silenceThresholdOf cfg bg = (cfg.silence_threshold : ℝ) * 0.5) := by
  have hT' : (0 : ℝ) < (cfg.silence_threshold : ℝ) := by exact_mod_cast hT
  unfold speechThresholdOf silenceThresholdOf
  by_cases h : 0 < bg
  · rw [if_pos h, if_pos h]
    refine ⟨?_, fun _ => ⟨rfl, rfl⟩, fun hc => absurd h hc⟩
    calc min ((cfg.silence_threshold : ℝ)) (bg + 10) ≤ bg + 10 := min_le_right _ _
      _ < bg + 30 := by linarith
      _ ≤ max ((cfg.silence_threshold : ℝ) * 2) (bg + 30) := le_max_right _ _
  · rw [if_neg h, if_neg h]
    exact ⟨by linarith, fun hc => absurd hc h, fun _ => ⟨rfl, rfl⟩⟩

/-- Witness for C8: default threshold 50 with no background established. -/
theorem threshold_hysteresis_witness :
    (0 : ℚ) < 50 ∧
    silenceThresholdOf ⟨16000, 1024, 50, 3/10, 10⟩ 0 <
      speechThresholdOf ⟨16000, 1024, 50, 3/10, 10⟩ 0 := by
  refine ⟨by norm_num, ?_⟩
  exact (threshold_hysteresis ⟨16000, 1024, 50, 3/10, 10⟩ 0 (by norm_num)).1

/-- C9: the RMS of an empty frame is 0; for a non-empty frame the mean
square is provably non-negative (so the NaN / negative-mean-square guard of
the source, modelled by the clamp branch of `rmsOf`, never fires in exact
arithmetic) and the RMS is the square root of the mean square; the RMS is a
total, non-negative function — it never faults. -/
theorem rms_guard (chunk : List ℤ) (h : chunk ≠ []) :
    rmsOf [] = 0 ∧ 0 ≤ meanSquare chunk ∧
    rmsOf chunk = Real.sqrt (meanSquare chunk) ∧ 0 ≤ rmsOf chunk :=
  ⟨rmsOf_nil, meanSquare_nonneg chunk, rmsOf_eq_sqrt chunk h, rmsOf_nonneg chunk⟩

/-- Witness for C9 at the one-sample frame `[3]`. -/
theorem rms_guard_witness :
    ([3] : List ℤ) ≠ [] ∧
    (rmsOf [] = 0 ∧ 0 ≤ meanSquare [3] ∧
     rmsOf [3] = Real.sqrt (meanSquare [3]) ∧ 0 ≤ rmsOf [3]) := by
  have h : ([3] : List ℤ) ≠ [] := by simp
  exact ⟨h, rms_guard [3] h⟩

/-! ## The wake-word gate -/

lemma detect_cooldown (st : WakeWordState) (text : List Char) (t : ℚ)
    (h : t - st.last_detection < 2) : detect st text t = (false, st) := by
  unfold detect
  rcases eq_or_ne text [] with rfl | hne
  · rw [if_pos rfl]
  · rw [if_neg hne, if_pos h]

lemma detect_match (st : WakeWordState) (text : List Char) (t : ℚ)
    (ht : text ≠ []) (hc : 2 ≤ t - st.last_detection)
    (hm : ∃ w ∈ st.wake_words, w <:+: text.map Char.toLower) :
    detect st text t = (true, { st with last_detection := t }) := by
  unfold detect
  rw [if_neg ht, if_neg (not_lt.2 hc), if_pos hm]

lemma detect_true_state (st : WakeWordState) (text : List Char) (t : ℚ)
    (h : (detect st text t).1 = true) :
    (detect st text t).2 = { st with last_detection := t } := by
  unfold detect at *
  rcases eq_or_ne text [] with rfl | hne
  · rw [if_pos rfl] at h
    simp at h
  · rw [if_neg hne] at h ⊢
    by_cases hcd : t - st.last_detection < 2
    · rw [if_pos hcd] at h
      simp at h
    · rw [if_neg hcd] at h ⊢
      by_cases hm : ∃ w ∈ st.wake_words, w <:+: text.map Char.toLower
      · rw [if_pos hm]
      · rw [if_neg hm] at h
        simp at h

lemma detectRun_cooldown (calls : List (List Char × ℚ)) :
    ∀ st : WakeWordState, (∀ c ∈ calls, c.2 - st.last_detection < 2) →
      (detectRun st calls).1 = List.replicate calls.length false ∧
      (detectRun st calls).2 = st := by
  induction calls with
  | nil => intro st _; exact ⟨rfl, rfl⟩
  | cons c cs ih =>
      intro st h
      have hstep := detect_cooldown st c.1 c.2 (h c (by simp))
      simp only [detectRun, hstep]
      obtain ⟨ih1, ih2⟩ := ih st (fun c' hc' => h c' (by simp [hc']))
      rw [ih1, ih2]
      exact ⟨rfl, rfl⟩

/-- C7: the wake-word gate (i) returns false, with no state change, whenever
the call is within the 2-second cooldown of the last recorded detection,
regardless of the text; (ii) on a non-empty text containing a wake phrase
(case-insensitively) outside the cooldown it records the call time and
returns true; (iii) after a call that returned true, every later call within
2 seconds of it returns false — `detect` never returns true twice inside one
cooldown window. -/
theorem wake_word_gate :
    (∀ (st : WakeWordState) (text : List Char) (t : ℚ),
      t - st.last_detection < 2 → detect st text t = (false, st)) ∧
    (∀ (st : WakeWordState) (text : List Char) (t : ℚ),
      text ≠ [] → 2 ≤ t - st.last_detection →
      (∃ w ∈ st.wake_words, w <:+: text.map Char.toLower) →
      detect st text t = (true, { st with last_detection := t })) ∧
    (∀ (st : WakeWordState) (text : List Char) (t : ℚ)
        (calls : List (List Char × ℚ)),
      (detect st text t).1 = true → (∀ c ∈ calls, c.2 - t < 2) →
      (detectRun (detect st text t).2 calls).1 =
        List.replicate calls.length false) := by
  refine ⟨detect_cooldown, detect_match, ?_⟩
  intro st text t calls h hcalls
  rw [detect_true_state st text t h]
  exact (detectRun_cooldown calls _ (fun c hc => hcalls c hc)).1

/-- Witness for C7: wake word "jarvis"; a call during cooldown returns
false; a matching call at time 103 returns true; two follow-up calls within
2 seconds of it both return false. -/
theorem wake_word_gate_witness :
    ((101 : ℚ) - (⟨[['j','a','r','v','i','s']], 100⟩ : WakeWordState).last_detection < 2 ∧
      detect ⟨[['j','a','r','v','i','s']], 100⟩ ['j','a','r','v','i','s'] 101 =
        (false, ⟨[['j','a','r','v','i','s']], 100⟩)) ∧
    ((['h','e','y',' ','J','a','r','v','i','s'] : List Char) ≠ [] ∧
      (2 : ℚ) ≤ 103 - (⟨[['j','a','r','v','i','s']], 100⟩ : WakeWordState).last_detection ∧
      (∃ w ∈ (⟨[['j','a','r','v','i','s']], 100⟩ : WakeWordState).wake_words,
        w <:+: (['h','e','y',' ','J','a','r','v','i','s'] : List Char).map Char.toLower) ∧
      detect ⟨[['j','a','r','v','i','s']], 100⟩ ['h','e','y',' ','J','a','r','v','i','s'] 103 =
        (true, ⟨[['j','a','r','v','i','s']], 103⟩)) ∧
    ((detect ⟨[['j','a','r','v','i','s']], 100⟩ ['h','e','y',' ','J','a','r','v','i','s'] 103).1 = true ∧
      (∀ c ∈ ([(['j','a','r','v','i','s'], (104 : ℚ)),
               (['j','a','r','v','i','s'], (104.5 : ℚ))] : List (List Char × ℚ)),
        c.2 - 103 < 2) ∧
      (detectRun
        (detect ⟨[['j','a','r','v','i','s']], 100⟩ ['h','e','y',' ','J','a','r','v','i','s'] 103).2
        [(['j','a','r','v','i','s'], (104 : ℚ)), (['j','a','r','v','i','s'], (104.5 : ℚ))]).1 =
        List.replicate 2 false) := by
  have h1 : (101 : ℚ) - (100 : ℚ) < 2 := by norm_num
  have hne : (['h','e','y',' ','J','a','r','v','i','s'] : List Char) ≠ [] := by simp
  have hcd : (2 : ℚ) ≤ 103 - (100 : ℚ) := by norm_num
  have hm : ∃ w ∈ (⟨[['j','a','r','v','i','s']], 100⟩ : WakeWordState).wake_words,
      w <:+: (['h','e','y',' ','J','a','r','v','i','s'] : List Char).map Char.toLower := by
    refine ⟨['j','a','r','v','i','s'], by simp, ?_⟩
    decide
  have hmatch := (wake_word_gate).2.1 ⟨[['j','a','r','v','i','s']], 100⟩
    ['h','e','y',' ','J','a','r','v','i','s'] 103 hne hcd hm
  have htrue : (detect ⟨[['j','a','r','v','i','s']], 100⟩
      ['h','e','y',' ','J','a','r','v','i','s'] 103).1 = true := by
    rw [hmatch]
  have hcalls : ∀ c ∈ ([(['j','a','r','v','i','s'], (104 : ℚ)),
      (['j','a','r','v','i','s'], (104.5 : ℚ))] : List (List Char × ℚ)), c.2 - 103 < 2 := by
    intro c hc
    fin_cases hc <;> norm_num
  refine ⟨⟨h1, (wake_word_gate).1 _ _ _ h1⟩, ⟨hne, hcd, hm, hmatch⟩,
          ⟨htrue, hcalls, ?_⟩⟩
  have := (wake_word_gate).2.2 ⟨[['j','a','r','v','i','s']], 100⟩
    ['h','e','y',' ','J','a','r','v','i','s'] 103
    [(['j','a','r','v','i','s'], (104 : ℚ)), (['j','a','r','v','i','s'], (104.5 : ℚ))]
    htrue hcalls
  simpa using this

/-! ## The recording-implies-speech invariant -/

lemma finishFrame_recInv (cfg : AudioConfig) (st : AudioBufferState) (chunk : List ℤ)
    (h : recImpliesSpeech st) : recImpliesSpeech (finishFrame cfg st chunk).2 := by
  unfold finishFrame
  split
  · split
    · intro hh
      simp at hh
    · intro hh
      exact h hh
  · exact h

lemma addChunk_recInv (cfg : AudioConfig) (st : AudioBufferState) (chunk : List ℤ)
    (h : recImpliesSpeech st) : recImpliesSpeech (addChunk cfg st chunk).2 := by
  simp only [addChunk]
  repeat' split
  all_goals
    first
      | exact finishFrame_recInv _ _ _ (fun _ => rfl)
      | (intro hh; simp at hh)
      | exact finishFrame_recInv _ _ _ (fun hh => h hh)

lemma getAudioData_recInv (st : AudioBufferState) (h : recImpliesSpeech st) :
    recImpliesSpeech (getAudioData st).2 := by
  unfold getAudioData
  split
  · exact h
  · intro hh
    simp at hh

lemma runOps_recInv (cfg : AudioConfig) (ops : List BufOp) :
    ∀ st : AudioBufferState, recImpliesSpeech st → recImpliesSpeech (runOps cfg st ops) := by
  induction ops with
  | nil => intro st h; exact h
  | cons op rest ih =>
      intro st h
      cases op with
      | frame c => exact ih _ (addChunk_recInv cfg st c h)
      | retrieve => exact ih _ (getAudioData_recInv st h)

/-- C10: `is_recording → speech_detected` holds of a fresh buffer, is
preserved by `add_chunk` (recording is switched on only together with
speech detection) and by `get_audio_data` (which clears both or leaves the
state untouched), hence holds in every state reachable from a fresh buffer
by any sequence of these operations. -/
theorem recording_implies_speech :
    (∀ cap : ℕ, recImpliesSpeech (initBuffer cap)) ∧
    (∀ (cfg : AudioConfig) (st : AudioBufferState) (chunk : List ℤ),
      recImpliesSpeech st → recImpliesSpeech (addChunk cfg st chunk).2) ∧
    (∀ st : AudioBufferState,
      recImpliesSpeech st → recImpliesSpeech (getAudioData st).2) ∧
    (∀ (cfg : AudioConfig) (cap : ℕ) (ops : List BufOp),
      recImpliesSpeech (runOps cfg (initBuffer cap) ops)) :=
  ⟨fun _ hh => by simp [initBuffer] at hh,
   addChunk_recInv, getAudioData_recInv,
   fun cfg cap ops => runOps_recInv cfg ops _ (fun hh => by simp [initBuffer] at hh)⟩

/-- Witness for C10: the invariant-preservation parts applied at a concrete
state satisfying the invariant, and the reachability part at a concrete
operation sequence. -/
theorem recording_implies_speech_witness :
    recImpliesSpeech (⟨4, [2], true, 0, true, [], 0, 1⟩ : AudioBufferState) ∧
    recImpliesSpeech
      (addChunk ⟨16000, 1024, 50, 3/10, 10⟩ ⟨4, [2], true, 0, true, [], 0, 1⟩ [0]).2 ∧
    recImpliesSpeech (getAudioData ⟨4, [2], true, 0, true, [], 0, 1⟩).2 ∧
    recImpliesSpeech
      (runOps ⟨16000, 1024, 50, 3/10, 10⟩ (initBuffer 4)
        [BufOp.frame [7], BufOp.retrieve]) := by
  have h : recImpliesSpeech (⟨4, [2], true, 0, true, [], 0, 1⟩ : AudioBufferState) :=
    fun _ => rfl
  exact ⟨h, recording_implies_speech.2.1 _ _ _ h, recording_implies_speech.2.2.1 _ h,
         recording_implies_speech.2.2.2 _ 4 _⟩

lemma initBuffer_max_size (cap : ℕ) : (initBuffer cap).max_size = cap := rfl

lemma initBuffer_buffer (cap : ℕ) : (initBuffer cap).buffer = [] := rfl

lemma appendCap_append (cap : ℕ) (buf : List ℤ) (xs ys : List (List ℤ)) :
    appendCap cap buf (xs ++ ys) = appendCap cap (appendCap cap buf xs) ys := by
  simp [appendCap, List.foldl_append]

lemma appendCap_cons (cap : ℕ) (buf : List ℤ) (c : List ℤ) (cs : List (List ℤ)) :
    appendCap cap buf (c :: cs) = appendCap cap (pushCap cap (buf ++ c)) cs := rfl

/-- Complete analysis of a loud-tone-then-silence run from a fresh
buffer: onset on the first loud frame, no completion during the loud
frames or the first `⌊silenceChunks⌋` silent frames, completion (`true`)
on every later silent frame; the accumulator ends up holding the loud
frames plus the counted silent frames, capped at 32000 samples. -/
lemma loudThenSilentRun (cfg : AudioConfig) (loud silent : List (List ℤ))
    (hT : 0 < cfg.silence_threshold)
    (hne : loud ≠ [])
    (hl : ∀ l ∈ loud, (cfg.silence_threshold : ℝ) * 3 < rmsOf l)
    (hs : ∀ s ∈ silent, ∀ x ∈ s, x = 0)
    (hNq : 0 ≤ silenceChunksOf cfg)
    (hb : silenceChunksOf cfg < ((silent.length : ℕ) : ℚ))
    (hM : ((loud.length + Nat.floor (silenceChunksOf cfg) : ℕ) : ℚ) ≤ maxChunksOf cfg) :
    (feedAll cfg (initBuffer 32000) (loud ++ silent)).1 =
      List.replicate (loud.length + Nat.floor (silenceChunksOf cfg)) false ++
      List.replicate (silent.length - Nat.floor (silenceChunksOf cfg)) true ∧
    1 ≤ silent.length - Nat.floor (silenceChunksOf cfg) ∧
    (feedAll cfg (initBuffer 32000) (loud ++ silent)).2.buffer =
      appendCap 32000 [] (loud ++ silent.take (Nat.floor (silenceChunksOf cfg))) ∧
    (feedAll cfg (initBuffer 32000) (loud ++ silent)).2.buffer.length =
      min ((loud.map List.length).sum +
        ((silent.take (Nat.floor (silenceChunksOf cfg))).map List.length).sum) 32000 := by
  have hTpos : (0 : ℝ) < (cfg.silence_threshold : ℝ) := by exact_mod_cast hT
  obtain ⟨l0, lr, rfl⟩ := List.exists_cons_of_ne_nil hne
  set K := Nat.floor (silenceChunksOf cfg) with hKdef
  -- onset on the first loud frame
  have hbg0 : backgroundAfter (initBuffer 32000)
      (pushFifo 10 (initBuffer 32000).recent_rms (rmsOf l0)) = 0 := by
    unfold backgroundAfter
    rw [if_neg]
    · rfl
    · intro hcon
      have h5 := hcon.2
      simp [initBuffer, pushFifo] at h5
  have h1le : (1 : ℚ) ≤ maxChunksOf cfg := by
    refine le_trans ?_ hM
    have h1 : (1 : ℕ) ≤ (l0 :: lr).length + K := by
      simp only [List.length_cons]
      omega
    exact_mod_cast h1
  have honset := addChunk_onset cfg (initBuffer 32000) l0 rfl
    (by rw [hbg0, speechThresholdOf_zero]; exact hl l0 (by simp)) h1le
  rw [hbg0] at honset
  simp only [initBuffer_max_size, initBuffer_buffer] at honset
  have hfirst : (addChunk cfg (initBuffer 32000) l0).1 = false := by rw [honset]
  have hShape1 : Shape (addChunk cfg (initBuffer 32000) l0).2 32000
      (pushCap 32000 ([] ++ l0)) true 0 0 1 := by
    rw [honset]
    refine ⟨rfl, by dsimp only, rfl, rfl, rfl, rfl, rfl⟩
  -- remaining loud frames
  have hlr : ∀ l ∈ lr, silenceThresholdOf cfg 0 < rmsOf l := by
    intro l hmem
    rw [silenceThresholdOf_zero]
    have h3 := hl l (by simp [hmem])
    nlinarith
  have hm2 : ((1 + lr.length : ℕ) : ℚ) ≤ maxChunksOf cfg := by
    refine le_trans ?_ hM
    have h2 : 1 + lr.length ≤ (l0 :: lr).length + K := by
      simp only [List.length_cons]
      omega
    exact_mod_cast h2
  obtain ⟨hflags2, hShape2⟩ := feedAll_loud cfg 32000 0 lr
    (addChunk cfg (initBuffer 32000) l0).2 (pushCap 32000 ([] ++ l0)) 1 hShape1 hlr hm2
  -- facts about the silent frames
  have hzero : ∀ s ∈ silent, rmsOf s ≤ silenceThresholdOf cfg 0 := by
    intro s hmem
    rw [rmsOf_allZero (hs s hmem), silenceThresholdOf_zero]
    nlinarith
  have hKle : ((K : ℕ) : ℚ) ≤ silenceChunksOf cfg := by
    exact_mod_cast Nat.floor_le hNq
  have hKlt : K < silent.length := by
    have h4 := lt_of_le_of_lt (Nat.floor_le hNq) hb
    exact_mod_cast h4
  have htakelen : (silent.take K).length = K := by
    rw [List.length_take]
    omega
  -- counting phase over the first K silent frames
  obtain ⟨hflags3, hShape3⟩ := feedAll_silent_count cfg 32000 0 (silent.take K)
    (feedAll cfg (addChunk cfg (initBuffer 32000) l0).2 lr).2
    (appendCap 32000 (pushCap 32000 ([] ++ l0)) lr) 0 (1 + lr.length) hShape2
    (fun s hs' => hzero s (List.take_subset _ _ hs'))
    (by rw [htakelen]
        simpa using hKle)
    (by rw [htakelen]
        refine le_trans (le_of_eq ?_) hM
        simp only [List.length_cons]
        push_cast
        ring)
  obtain ⟨hS3a, hS3b, hS3c, hS3d, hS3e, hS3f, hS3g⟩ := hShape3
  -- completion phase over the remaining silent frames
  obtain ⟨hflagsT, hbufT, _⟩ := feedAll_silent_tail cfg 0 (silent.drop K)
    (feedAll cfg (feedAll cfg (addChunk cfg (initBuffer 32000) l0).2 lr).2 (silent.take K)).2
    hS3e hS3f
    (by rw [hS3d, htakelen, hKdef]
        have h6 := Nat.lt_floor_add_one (silenceChunksOf cfg)
        push_cast
        push_cast at h6
        linarith)
    (fun s hs' => hzero s (List.drop_subset _ _ hs'))
  -- assembling the run
  have hsilent : feedAll cfg
      (feedAll cfg (addChunk cfg (initBuffer 32000) l0).2 lr).2 silent =
      ((feedAll cfg (feedAll cfg (addChunk cfg (initBuffer 32000) l0).2 lr).2
          (silent.take K)).1 ++
        (feedAll cfg (feedAll cfg (feedAll cfg (addChunk cfg (initBuffer 32000) l0).2 lr).2
          (silent.take K)).2 (silent.drop K)).1,
       (feedAll cfg (feedAll cfg (feedAll cfg (addChunk cfg (initBuffer 32000) l0).2 lr).2
          (silent.take K)).2 (silent.drop K)).2) := by
    conv_lhs => rw [← List.take_append_drop K silent]
    exact feedAll_append cfg (silent.take K) (silent.drop K) _
  have hrun : feedAll cfg (initBuffer 32000) ((l0 :: lr) ++ silent) =
      ((addChunk cfg (initBuffer 32000) l0).1 ::
        (feedAll cfg (addChunk cfg (initBuffer 32000) l0).2 (lr ++ silent)).1,
       (feedAll cfg (addChunk cfg (initBuffer 32000) l0).2 (lr ++ silent)).2) := by
    simp only [List.cons_append, feedAll, List.append_eq]
  have hdroplen : (silent.drop K).length = silent.length - K := List.length_drop _ _
  refine ⟨?_, by omega, ?_, ?_⟩
  · rw [hrun, hfirst, feedAll_append cfg lr silent, hflags2, hsilent, hflags3, hflagsT,
        htakelen, hdroplen]
    show false :: (List.replicate lr.length false ++
        (List.replicate K false ++ List.replicate (silent.length - K) true)) = _
    rw [show (l0 :: lr).length + K = 1 + (lr.length + K) by
          simp only [List.length_cons]
          omega,
        List.replicate_add, List.replicate_add]
    rw [List.append_assoc, List.append_assoc, List.replicate_one, List.singleton_append]
  · rw [hrun]
    simp only []
    rw [feedAll_append cfg lr silent, hsilent]
    simp only []
    rw [hbufT, hS3b, ← appendCap_append]
    conv_rhs => rw [List.cons_append, appendCap_cons]
  · rw [hrun]
    simp only []
    rw [feedAll_append cfg lr silent, hsilent]
    simp only []
    rw [hbufT, hS3b, ← appendCap_append,
        show appendCap 32000 (pushCap 32000 ([] ++ l0)) (lr ++ silent.take K) =
            appendCap 32000 [] ((l0 :: lr) ++ silent.take K) by
          rw [List.cons_append, appendCap_cons],
        appendCap_length 32000 [] _ (by simp)]
    simp
    omega

lemma getAudioData_nonempty (st : AudioBufferState) (h : st.buffer ≠ []) :
    (getAudioData st).1 = st.buffer := by
  unfold getAudioData
  rw [if_neg h]

/-- C1 (amended): from a fresh engine, a run of non-empty loud frames (RMS
above 3 × the configured silence threshold) followed by all-zero silent
frames — at least one more than `silenceDuration × sampleRate / frameSize`,
all within the maximum recording time — returns false on every loud frame
and on the first `⌊silenceChunks⌋` silent frames, and true on every later
silent frame (so at least once, and exactly once only when the silent tail
stops right after the threshold); a subsequent `retrieveUtterance` yields a
non-empty sequence whose length is the number of samples appended while
recording, capped at the 32000-sample accumulator capacity. -/
theorem utterance_segmentation (cfg : AudioConfig) (loud silent : List (List ℤ))
    (hT : 0 < cfg.silence_threshold)
    (hne : loud ≠ [])
    (hlne : ∀ l ∈ loud, l ≠ [])
    (hl : ∀ l ∈ loud, (cfg.silence_threshold : ℝ) * 3 < rmsOf l)
    (hs : ∀ s ∈ silent, ∀ x ∈ s, x = 0)
    (hNq : 0 ≤ silenceChunksOf cfg)
    (hb : silenceChunksOf cfg < ((silent.length : ℕ) : ℚ))
    (hM : ((loud.length + Nat.floor (silenceChunksOf cfg) : ℕ) : ℚ) ≤ maxChunksOf cfg) :
    (feedAll cfg (initBuffer 32000) (loud ++ silent)).1 =
      List.replicate (loud.length + Nat.floor (silenceChunksOf cfg)) false ++
      List.replicate (silent.length - Nat.floor (silenceChunksOf cfg)) true ∧
    1 ≤ silent.length - Nat.floor (silenceChunksOf cfg) ∧
    (getAudioData (feedAll cfg (initBuffer 32000) (loud ++ silent)).2).1 ≠ [] ∧
    (getAudioData (feedAll cfg (initBuffer 32000) (loud ++ silent)).2).1.length =
      min ((loud.map List.length).sum +
        ((silent.take (Nat.floor (silenceChunksOf cfg))).map List.length).sum) 32000 := by
  obtain ⟨hfl, hone, hbuf, hlen⟩ := loudThenSilentRun cfg loud silent hT hne hl hs hNq hb hM
  have hsum : 1 ≤ (loud.map List.length).sum := by
    obtain ⟨l0, lr, rfl⟩ := List.exists_cons_of_ne_nil hne
    have h0 : l0 ≠ [] := hlne l0 (by simp)
    have h1 : 0 < l0.length := List.length_pos.2 h0
    simp only [List.map_cons, List.sum_cons]
    omega
  have hpos : 0 < (feedAll cfg (initBuffer 32000) (loud ++ silent)).2.buffer.length := by
    rw [hlen]
    omega
  have hbne : (feedAll cfg (initBuffer 32000) (loud ++ silent)).2.buffer ≠ [] := by
    intro hc
    rw [hc] at hpos
    simp at hpos
  have hget := getAudioData_nonempty _ hbne
  refine ⟨hfl, hone, ?_, ?_⟩
  · rw [hget]
    exact hbne
  · rw [hget, hlen]

/-- Witness for C1: the default configuration, one loud frame of two
samples at 200, five single-sample silent frames (threshold 4.6875): one
completion, retrieved utterance of length 2 + 4 = 6. -/
theorem utterance_segmentation_witness :
    (0 : ℚ) < 50 ∧
    silenceChunksOf ⟨16000, 1024, 50, 3/10, 10⟩ < ((5 : ℕ) : ℚ) ∧
    (((1 + Nat.floor (silenceChunksOf ⟨16000, 1024, 50, 3/10, 10⟩) : ℕ) : ℚ) ≤
      maxChunksOf ⟨16000, 1024, 50, 3/10, 10⟩) ∧
    (feedAll ⟨16000, 1024, 50, 3/10, 10⟩ (initBuffer 32000)
        ([[200, 200]] ++ List.replicate 5 [0])).1 =
      List.replicate 5 false ++ List.replicate 1 true ∧
    (getAudioData (feedAll ⟨16000, 1024, 50, 3/10, 10⟩ (initBuffer 32000)
        ([[200, 200]] ++ List.replicate 5 [0])).2).1 ≠ [] ∧
    (getAudioData (feedAll ⟨16000, 1024, 50, 3/10, 10⟩ (initBuffer 32000)
        ([[200, 200]] ++ List.replicate 5 [0])).2).1.length = 6 := by
  have hsc : silenceChunksOf ⟨16000, 1024, 50, 3/10, 10⟩ = 75 / 16 := by
    norm_num [silenceChunksOf]
  have hK : Nat.floor (silenceChunksOf ⟨16000, 1024, 50, 3/10, 10⟩) = 4 := by
    rw [hsc]
    rw [Nat.floor_eq_iff (by norm_num)]
    norm_num
  have h200 : rmsOf [(200 : ℤ), 200] = 200 := by
    rw [show ([(200 : ℤ), 200] : List ℤ) = List.replicate 2 200 from rfl,
        rmsOf_replicate 2 200 (by norm_num)]
    norm_num
  have hmain := utterance_segmentation ⟨16000, 1024, 50, 3/10, 10⟩
    [[200, 200]] (List.replicate 5 [0]) (by norm_num) (by simp)
    (by intro l hml
        rw [List.mem_singleton] at hml
        rw [hml]
        simp)
    (by intro l hml
        rw [List.mem_singleton] at hml
        rw [hml, h200]
        norm_num)
    (by intro s hms x hx
        rw [List.eq_of_mem_replicate hms] at hx
        simpa using hx)
    (by rw [hsc]; norm_num)
    (by rw [hsc]; norm_num)
    (by rw [hK, maxChunksOf]; norm_num)
  obtain ⟨hfl, hone, hnonempty, hlen⟩ := hmain
  refine ⟨by norm_num, by rw [hsc]; norm_num, by rw [hK, maxChunksOf]; norm_num,
          ?_, hnonempty, ?_⟩
  · rw [hfl, hK]
    norm_num
  · rw [hlen, hK]
    norm_num

/-- C1 counterexample: with the default configuration, one loud frame
followed by six single-sample silent frames satisfies the claim\'s
hypotheses (RMS 200 > 150 for one frame, then ≥ 4.6875 silent frames), yet
`add_chunk` returns true twice — on the 5th and on the 6th silent frame —
so "`processFrame` returns true exactly once over the whole sequence" is
false on the code. -/
theorem utterance_exactly_once_counterexample :
    (feedAll ⟨16000, 1024, 50, 3/10, 10⟩ (initBuffer 32000)
        ([[200, 200]] ++ List.replicate 6 [0])).1 =
      List.replicate 5 false ++ [true, true] ∧
    (List.replicate 5 false ++ [true, true]).count true = 2 := by
  have hsc : silenceChunksOf ⟨16000, 1024, 50, 3/10, 10⟩ = 75 / 16 := by
    norm_num [silenceChunksOf]
  have hK : Nat.floor (silenceChunksOf ⟨16000, 1024, 50, 3/10, 10⟩) = 4 := by
    rw [hsc]
    rw [Nat.floor_eq_iff (by norm_num)]
    norm_num
  have h200 : rmsOf [(200 : ℤ), 200] = 200 := by
    rw [show ([(200 : ℤ), 200] : List ℤ) = List.replicate 2 200 from rfl,
        rmsOf_replicate 2 200 (by norm_num)]
    norm_num
  obtain ⟨hfl, hone, hbuf, hlen⟩ := loudThenSilentRun ⟨16000, 1024, 50, 3/10, 10⟩
    [[200, 200]] (List.replicate 6 [0]) (by norm_num)
    (List.cons_ne_nil _ _)
    (by intro l hml
        rw [List.mem_singleton] at hml
        rw [hml, h200]
        norm_num)
    (by intro s hms x hx
        rw [List.eq_of_mem_replicate hms] at hx
        simpa using hx)
    (by rw [hsc]; norm_num)
    (by rw [hsc]; norm_num)
    (by rw [hK, maxChunksOf]; norm_num)
  rw [hK] at hfl
  refine ⟨?_, by decide⟩
  rw [hfl]
  simp only [List.length_cons, List.length_nil, List.length_replicate]
  decide

/-- C3: from a state just after speech onset (recording, zero counters,
frozen background `b`), frames above the silence threshold fed continuously
for more than `maxRecordingTime × sampleRate / frameSize` frames force
completion: the final frame returns true with no silent frame ever counted,
and `is_recording` is false after that call. -/
theorem max_duration_cutoff (cfg : AudioConfig) (cap : ℕ) (b : ℝ) (buf : List ℤ)
    (st : AudioBufferState) (frames : List (List ℤ)) (f : List ℤ)
    (hsh : Shape st cap buf true 0 b 0)
    (hl : ∀ l ∈ frames, silenceThresholdOf cfg b < rmsOf l)
    (hf : silenceThresholdOf cfg b < rmsOf f)
    (hn : ((frames.length : ℕ) : ℚ) ≤ maxChunksOf cfg)
    (hforce : maxChunksOf cfg < ((frames.length + 1 : ℕ) : ℚ)) :
    (feedAll cfg st (frames ++ [f])).1 = List.replicate frames.length false ++ [true] ∧
    (feedAll cfg st (frames ++ [f])).2.is_recording = false ∧
    (feedAll cfg st (frames ++ [f])).2.silence_counter = 0 := by
  obtain ⟨hr1, hsh'⟩ := feedAll_loud cfg cap b frames st buf 0 hsh hl (by simpa using hn)
  obtain ⟨s1, s2, s3, s4, s5, s6, s7⟩ := hsh'
  have hstep := addChunk_speech_maxed cfg (feedAll cfg st frames).2 f s5 s3
    (by rw [s6]; exact hf)
    (by rw [s7]; simpa using hforce)
  rw [feedAll_append cfg frames [f] st]
  refine ⟨?_, ?_, ?_⟩
  · rw [hr1]
    simp [feedAll, hstep]
  · simp [feedAll, hstep]
  · simp [feedAll, hstep]

/-- Witness for C3: a 0.1-second maximum recording time gives a cutoff of
1.5625 chunks; two loud frames force completion on the second. -/
theorem max_duration_cutoff_witness :
    Shape (⟨32000, [9], true, 0, true, [], 0, 0⟩ : AudioBufferState) 32000 [9] true 0 0 0 ∧
    (∀ l ∈ [[(300 : ℤ)]], silenceThresholdOf ⟨16000, 1024, 50, 3/10, 1/10⟩ 0 < rmsOf l) ∧
    silenceThresholdOf ⟨16000, 1024, 50, 3/10, 1/10⟩ 0 < rmsOf [(300 : ℤ)] ∧
    ((([[(300 : ℤ)]] : List (List ℤ)).length : ℚ) ≤ maxChunksOf ⟨16000, 1024, 50, 3/10, 1/10⟩) ∧
    (maxChunksOf ⟨16000, 1024, 50, 3/10, 1/10⟩ <
      ((([[(300 : ℤ)]] : List (List ℤ)).length + 1 : ℕ) : ℚ)) ∧
    ((feedAll ⟨16000, 1024, 50, 3/10, 1/10⟩ ⟨32000, [9], true, 0, true, [], 0, 0⟩
        ([[(300 : ℤ)]] ++ [[(300 : ℤ)]])).1 = List.replicate 1 false ++ [true] ∧
      (feedAll ⟨16000, 1024, 50, 3/10, 1/10⟩ ⟨32000, [9], true, 0, true, [], 0, 0⟩
        ([[(300 : ℤ)]] ++ [[(300 : ℤ)]])).2.is_recording = false ∧
      (feedAll ⟨16000, 1024, 50, 3/10, 1/10⟩ ⟨32000, [9], true, 0, true, [], 0, 0⟩
        ([[(300 : ℤ)]] ++ [[(300 : ℤ)]])).2.silence_counter = 0) := by
  have h300 : rmsOf [(300 : ℤ)] = 300 := by
    rw [show ([(300 : ℤ)] : List ℤ) = List.replicate 1 300 from rfl,
        rmsOf_replicate 1 300 one_ne_zero]
    norm_num
  have hth : silenceThresholdOf ⟨16000, 1024, 50, 3/10, 1/10⟩ 0 < rmsOf [(300 : ℤ)] := by
    rw [silenceThresholdOf_zero, h300]
    norm_num
  have hsh : Shape (⟨32000, [9], true, 0, true, [], 0, 0⟩ : AudioBufferState)
      32000 [9] true 0 0 0 := ⟨rfl, rfl, rfl, rfl, rfl, rfl, rfl⟩
  have hl : ∀ l ∈ [[(300 : ℤ)]], silenceThresholdOf ⟨16000, 1024, 50, 3/10, 1/10⟩ 0 < rmsOf l := by
    intro l hl
    rw [List.mem_singleton] at hl
    rw [hl]
    exact hth
  have hn : ((([[(300 : ℤ)]] : List (List ℤ)).length : ℚ) ≤
      maxChunksOf ⟨16000, 1024, 50, 3/10, 1/10⟩) := by
    simp [maxChunksOf]
    norm_num
  have hforce : maxChunksOf ⟨16000, 1024, 50, 3/10, 1/10⟩ <
      ((([[(300 : ℤ)]] : List (List ℤ)).length + 1 : ℕ) : ℚ) := by
    simp [maxChunksOf]
    norm_num
  exact ⟨hsh, hl, hth, hn, hforce,
    max_duration_cutoff ⟨16000, 1024, 50, 3/10, 1/10⟩ 32000 0 [9]
      ⟨32000, [9], true, 0, true, [], 0, 0⟩ [[(300 : ℤ)]] [(300 : ℤ)]
      hsh hl hth hn hforce⟩

/-! ## The continuous-mode dispatch -/

lemma initBuffer_recent_rms (cap : ℕ) : (initBuffer cap).recent_rms = [] := rfl

lemma pushFifo_small (maxlen : ℕ) (l : List ℝ) (x : ℝ) (h : l.length + 1 ≤ maxlen) :
    pushFifo maxlen l x = l ++ [x] := by
  unfold pushFifo
  rw [show (l ++ [x]).length - maxlen = 0 by
        rw [List.length_append, List.length_singleton]
        omega,
      List.drop_zero]

lemma backgroundAfter_short (st : AudioBufferState) (recent : List ℝ)
    (h : recent.length < 5) : backgroundAfter st recent = st.background_rms := by
  unfold backgroundAfter
  rw [if_neg]
  rintro ⟨-, h5⟩
  omega

lemma coordStep_incomplete (cfg : AudioConfig) (s : CoordState) (c : List ℤ) (b : Bool)
    (h : (addChunk cfg s.buf c).1 = false) :
    coordStep cfg s c b = ⟨(addChunk cfg s.buf c).2, s.transcribed⟩ := by
  simp only [coordStep]
  rw [if_neg]
  rintro ⟨h1, -⟩
  rw [h] at h1
  exact Bool.noConfusion h1

lemma coordStep_busy (cfg : AudioConfig) (s : CoordState) (c : List ℤ) :
    coordStep cfg s c true = ⟨(addChunk cfg s.buf c).2, s.transcribed⟩ := by
  simp only [coordStep]
  rw [if_neg]
  rintro ⟨-, h2⟩
  exact Bool.noConfusion h2

lemma coordStep_drain (cfg : AudioConfig) (s : CoordState) (c : List ℤ)
    (h : (addChunk cfg s.buf c).1 = true)
    (hb : (addChunk cfg s.buf c).2.buffer ≠ []) :
    coordStep cfg s c false =
      ⟨(getAudioData (addChunk cfg s.buf c).2).2,
       s.transcribed ++ [(addChunk cfg s.buf c).2.buffer]⟩ := by
  simp only [coordStep]
  rw [if_pos ⟨h, trivial⟩, getAudioData_nonempty _ hb, if_neg hb]

/-- C4 (amended): when an utterance completes while a transcription is in
flight (`busy`), no transcription is started for it and the accumulator is
left exactly as `add_chunk` left it — the dropped utterance's samples are
retained, not discarded; when an utterance completes with no transcription
in flight, the transcription receives the entire accumulator contents
(including any samples retained from a previously dropped utterance), so at
most one transcription is dispatched per completion signal. -/
theorem transcription_backpressure :
    (∀ (cfg : AudioConfig) (s : CoordState) (chunk : List ℤ),
      (coordStep cfg s chunk true).transcribed = s.transcribed ∧
      (coordStep cfg s chunk true).buf = (addChunk cfg s.buf chunk).2) ∧
    (∀ (cfg : AudioConfig) (s : CoordState) (chunk : List ℤ),
      (addChunk cfg s.buf chunk).1 = true →
      (addChunk cfg s.buf chunk).2.buffer ≠ [] →
      (coordStep cfg s chunk false).transcribed =
        s.transcribed ++ [(addChunk cfg s.buf chunk).2.buffer]) := by
  constructor
  · intro cfg s chunk
    rw [coordStep_busy]
    exact ⟨rfl, rfl⟩
  · intro cfg s chunk h hb
    rw [coordStep_drain cfg s chunk h hb]

/-- Witness for C4: a state in which the next silent frame completes an
utterance with a non-empty accumulator `[7]`; busy drops it and keeps the
accumulator, free drains exactly the accumulator. -/
theorem transcription_backpressure_witness :
    ((coordStep ⟨16000, 1024, 50, 3/10, 10⟩ ⟨⟨32000, [7], false, 5, true, [], 0, 0⟩, []⟩
        [0] true).transcribed = [] ∧
     (coordStep ⟨16000, 1024, 50, 3/10, 10⟩ ⟨⟨32000, [7], false, 5, true, [], 0, 0⟩, []⟩
        [0] true).buf =
       (addChunk ⟨16000, 1024, 50, 3/10, 10⟩ ⟨32000, [7], false, 5, true, [], 0, 0⟩ [0]).2) ∧
    (addChunk ⟨16000, 1024, 50, 3/10, 10⟩ ⟨32000, [7], false, 5, true, [], 0, 0⟩ [0]).1 = true ∧
    (addChunk ⟨16000, 1024, 50, 3/10, 10⟩ ⟨32000, [7], false, 5, true, [], 0, 0⟩ [0]).2.buffer ≠ [] ∧
    (coordStep ⟨16000, 1024, 50, 3/10, 10⟩ ⟨⟨32000, [7], false, 5, true, [], 0, 0⟩, []⟩
        [0] false).transcribed =
      [] ++ [(addChunk ⟨16000, 1024, 50, 3/10, 10⟩ ⟨32000, [7], false, 5, true, [], 0, 0⟩ [0]).2.buffer] := by
  have e0 : rmsOf [(0 : ℤ)] = 0 := rmsOf_allZero (by intro x hx; simpa using hx)
  have hcomplete := addChunk_silent_complete ⟨16000, 1024, 50, 3/10, 10⟩
    ⟨32000, [7], false, 5, true, [], 0, 0⟩ [0] rfl
    (by rw [e0]
        show (0 : ℝ) ≤ silenceThresholdOf ⟨16000, 1024, 50, 3/10, 10⟩ 0
        rw [silenceThresholdOf_zero]
        norm_num)
    (by show silenceChunksOf ⟨16000, 1024, 50, 3/10, 10⟩ < ((5 + 1 : ℕ) : ℚ)
        norm_num [silenceChunksOf])
  have h1 : (addChunk ⟨16000, 1024, 50, 3/10, 10⟩
      ⟨32000, [7], false, 5, true, [], 0, 0⟩ [0]).1 = true := by rw [hcomplete]
  have hb : (addChunk ⟨16000, 1024, 50, 3/10, 10⟩
      ⟨32000, [7], false, 5, true, [], 0, 0⟩ [0]).2.buffer ≠ [] := by
    rw [hcomplete]
    simp
  exact ⟨transcription_backpressure.1 _ _ _, h1, hb,
         transcription_backpressure.2 _ _ _ h1 hb⟩

/-- C4 counterexample: one loud frame and six silent frames; the utterance
completes on the 6th frame while a transcription is in flight and is
dropped (nothing transcribed after six steps), yet its samples
`[200, 0, 0, 0, 0]` are exactly what the transcription started on the 7th
frame receives — the dropped utterance's samples do appear in a later
transcription, contradicting the claim. -/
theorem dropped_utterance_counterexample :
    (coordRun ⟨16000, 1024, 50, 3/10, 10⟩ ⟨initBuffer 32000, []⟩
        [([200], false), ([0], false), ([0], false), ([0], false), ([0], false),
         ([0], true), ([0], false)]).transcribed = [[200, 0, 0, 0, 0]] ∧
    (coordRun ⟨16000, 1024, 50, 3/10, 10⟩ ⟨initBuffer 32000, []⟩
        [([200], false), ([0], false), ([0], false), ([0], false), ([0], false),
         ([0], true)]).transcribed = [] ∧
    (addChunk ⟨16000, 1024, 50, 3/10, 10⟩
        (coordRun ⟨16000, 1024, 50, 3/10, 10⟩ ⟨initBuffer 32000, []⟩
          [([200], false), ([0], false), ([0], false), ([0], false), ([0], false)]).buf
        [0]).1 = true ∧
    (200 : ℤ) ∈ ([200, 0, 0, 0, 0] : List ℤ) := by
  have e200 : rmsOf [(200 : ℤ)] = 200 := by
    rw [show ([(200 : ℤ)] : List ℤ) = List.replicate 1 200 from rfl,
        rmsOf_replicate 1 200 one_ne_zero]
    norm_num
  have e0 : rmsOf [(0 : ℤ)] = 0 := rmsOf_allZero (by intro x hx; simpa using hx)
  have eS : silenceThresholdOf ⟨16000, 1024, 50, 3/10, 10⟩ 0 = 25 := by
    rw [silenceThresholdOf_zero]
    norm_num
  have eP : speechThresholdOf ⟨16000, 1024, 50, 3/10, 10⟩ 0 = 150 := by
    rw [speechThresholdOf_zero]
    norm_num
  -- step 1: onset on the loud frame
  have a1 : addChunk ⟨16000, 1024, 50, 3/10, 10⟩ (initBuffer 32000) [200] =
      (false, ⟨32000, [200], true, 0, true, [200], 0, 1⟩) := by
    have hbg : backgroundAfter (initBuffer 32000)
        (pushFifo 10 (initBuffer 32000).recent_rms (rmsOf [(200 : ℤ)])) = 0 := by
      rw [backgroundAfter_short]
      · rfl
      · rw [initBuffer_recent_rms]
        simp [pushFifo]
    rw [addChunk_onset ⟨16000, 1024, 50, 3/10, 10⟩ (initBuffer 32000) [200] rfl
        (by rw [hbg, eP, e200]; norm_num)
        (by norm_num [maxChunksOf]), hbg, e200, initBuffer_recent_rms,
        initBuffer_max_size, initBuffer_buffer]
    simp [pushFifo, pushCap, initBuffer]
  -- steps 2–5: silent frames are counted and appended
  have asilent : ∀ (bufl : List ℤ) (rec : List ℝ) (j r : ℕ),
      j + 1 ≤ 4 → r + 1 ≤ 156 → rec.length + 1 ≤ 10 → bufl.length + 1 ≤ 32000 →
      addChunk ⟨16000, 1024, 50, 3/10, 10⟩ ⟨32000, bufl, true, j, true, rec, 0, r⟩ [0] =
        (false, ⟨32000, bufl ++ [0], true, j + 1, true, rec ++ [0], 0, r + 1⟩) := by
    intro bufl rec j r hj hr hrec hbufl
    rw [addChunk_silent_count ⟨16000, 1024, 50, 3/10, 10⟩
        ⟨32000, bufl, true, j, true, rec, 0, r⟩ [0] rfl rfl
        (by rw [e0]
            show (0 : ℝ) ≤ silenceThresholdOf ⟨16000, 1024, 50, 3/10, 10⟩ 0
            rw [eS]
            norm_num)
        (by show ((j + 1 : ℕ) : ℚ) ≤ silenceChunksOf ⟨16000, 1024, 50, 3/10, 10⟩
            have hjq : ((j : ℚ)) + 1 ≤ 4 := by exact_mod_cast hj
            rw [silenceChunksOf]
            push_cast
            norm_num
            linarith)
        (by show ((r + 1 : ℕ) : ℚ) ≤ maxChunksOf ⟨16000, 1024, 50, 3/10, 10⟩
            have hrq : ((r : ℚ)) + 1 ≤ 156 := by exact_mod_cast hr
            rw [maxChunksOf]
            push_cast
            norm_num
            linarith), e0]
    rw [pushCap_of_le, pushFifo_small 10 rec 0 hrec]
    rw [List.length_append, List.length_singleton]
    exact hbufl
  -- step 6 and 7: completion
  have acomplete : ∀ (bufl : List ℤ) (rec : List ℝ) (j r : ℕ) (b : Bool),
      5 ≤ j + 1 →
      addChunk ⟨16000, 1024, 50, 3/10, 10⟩ ⟨32000, bufl, b, j, true, rec, 0, r⟩ [0] =
        (true, ⟨32000, bufl, false, j + 1, true, pushFifo 10 rec 0, 0, r⟩) := by
    intro bufl rec j r b hj
    rw [addChunk_silent_complete ⟨16000, 1024, 50, 3/10, 10⟩
        ⟨32000, bufl, b, j, true, rec, 0, r⟩ [0] rfl
        (by rw [e0]
            show (0 : ℝ) ≤ silenceThresholdOf ⟨16000, 1024, 50, 3/10, 10⟩ 0
            rw [eS]
            norm_num)
        (by show silenceChunksOf ⟨16000, 1024, 50, 3/10, 10⟩ < ((j + 1 : ℕ) : ℚ)
            have hjq : (5 : ℚ) ≤ ((j : ℚ)) + 1 := by exact_mod_cast hj
            rw [silenceChunksOf]
            push_cast
            norm_num
            linarith), e0]
  have a2 := asilent [200] [200] 0 1 (by norm_num) (by norm_num) (by simp) (by simp)
  have a3 := asilent [200, 0] [200, 0] 1 2 (by norm_num) (by norm_num) (by simp) (by simp)
  have a4 := asilent [200, 0, 0] [200, 0, 0] 2 3 (by norm_num) (by norm_num) (by simp) (by simp)
  have a5 := asilent [200, 0, 0, 0] [200, 0, 0, 0] 3 4 (by norm_num) (by norm_num)
    (by simp) (by simp)
  simp only [List.cons_append, List.nil_append] at a2 a3 a4 a5
  norm_num at a2 a3 a4 a5
  have a6 := acomplete [200, 0, 0, 0, 0] [200, 0, 0, 0, 0] 4 5 true (by norm_num)
  have a7 := acomplete [200, 0, 0, 0, 0] (pushFifo 10 [200, 0, 0, 0, 0] 0) 5 5 false
    (by norm_num)
  -- assemble the seven coordinator steps
  have s1 := coordStep_incomplete ⟨16000, 1024, 50, 3/10, 10⟩ ⟨initBuffer 32000, []⟩
    [200] false (by rw [a1])
  rw [a1] at s1
  have s2 := coordStep_incomplete ⟨16000, 1024, 50, 3/10, 10⟩
    ⟨⟨32000, [200], true, 0, true, [200], 0, 1⟩, []⟩ [0] false (by rw [a2])
  rw [a2] at s2
  have s3 := coordStep_incomplete ⟨16000, 1024, 50, 3/10, 10⟩
    ⟨⟨32000, [200, 0], true, 1, true, [200, 0], 0, 2⟩, []⟩ [0] false (by rw [a3])
  rw [a3] at s3
  have s4 := coordStep_incomplete ⟨16000, 1024, 50, 3/10, 10⟩
    ⟨⟨32000, [200, 0, 0], true, 2, true, [200, 0, 0], 0, 3⟩, []⟩ [0] false (by rw [a4])
  rw [a4] at s4
  have s5 := coordStep_incomplete ⟨16000, 1024, 50, 3/10, 10⟩
    ⟨⟨32000, [200, 0, 0, 0], true, 3, true, [200, 0, 0, 0], 0, 4⟩, []⟩ [0] false (by rw [a5])
  rw [a5] at s5
  have s6 := coordStep_busy ⟨16000, 1024, 50, 3/10, 10⟩
    ⟨⟨32000, [200, 0, 0, 0, 0], true, 4, true, [200, 0, 0, 0, 0], 0, 5⟩, []⟩ [0]
  rw [a6] at s6
  have s7 := coordStep_drain ⟨16000, 1024, 50, 3/10, 10⟩
    ⟨⟨32000, [200, 0, 0, 0, 0], false, 5, true, pushFifo 10 [200, 0, 0, 0, 0] 0, 0, 5⟩, []⟩
    [0] (by rw [a7]) (by rw [a7]; simp)
  rw [a7] at s7
  have hrun7 : (coordRun ⟨16000, 1024, 50, 3/10, 10⟩ ⟨initBuffer 32000, []⟩
      [([200], false), ([0], false), ([0], false), ([0], false), ([0], false),
       ([0], true), ([0], false)]).transcribed = [[200, 0, 0, 0, 0]] := by
    simp only [coordRun, s1, s2, s3, s4, s5, s6, s7]
    rfl
  have hrun6 : (coordRun ⟨16000, 1024, 50, 3/10, 10⟩ ⟨initBuffer 32000, []⟩
      [([200], false), ([0], false), ([0], false), ([0], false), ([0], false),
       ([0], true)]).transcribed = [] := by
    simp only [coordRun, s1, s2, s3, s4, s5, s6]
  have hrun5 : (coordRun ⟨16000, 1024, 50, 3/10, 10⟩ ⟨initBuffer 32000, []⟩
      [([200], false), ([0], false), ([0], false), ([0], false), ([0], false)]).buf =
      ⟨32000, [200, 0, 0, 0, 0], true, 4, true, [200, 0, 0, 0, 0], 0, 5⟩ := by
    simp only [coordRun, s1, s2, s3, s4, s5]
  refine ⟨hrun7, hrun6, ?_, by decide⟩
  rw [hrun5, a6]

end Jarvis
